import Mathlib

/- Verification development for the spectral-normalization core of the
   repository (`welch_psd` and `TMANorm` in `ms3/plot_psd.py`).

   Embedding conventions:
   * tensors are nested lists of rationals, axes outermost-first:
     a signal batch (batch, channel, time) is `List (List (List ℚ))`;
   * the transcendental numeric primitives of torch (`torch.sqrt`, the
     value tables of `torch.fft.rfft` / `torch.fft.irfft`, and the
     hamming/hann window coefficient tables) are abstracted into a
     `TorchPrims` record: their values are irrational in general, but every
     claim under study is about the arithmetic and shape structure built
     around them, which is embedded concretely.  The *output lengths* of
     `torch.fft.rfft` (`⌊n/2⌋+1` bins) and `torch.fft.irfft` (default
     output length `2·(n−1)` for `n` input bins) are part of the torch
     contract and are embedded concretely;
   * Python exceptions are modelled with `Except String`; the only raise
     site in `welch_psd` is the unsupported-window branch;
   * `axis` is fixed to the last axis (`axis=-1`, the value used by every
     call in the repository), for which the two `transpose(axis, -1)`
     calls in `welch_psd` are the identity. -/

namespace PSDNorm

abbrev Vec := List ℚ
abbrev Mat := List (List ℚ)
abbrev Ten3 := List (List (List ℚ))

/-- A complex value (re, im); `torch.abs(z)**2` is `re² + im²`. -/
abbrev Cx := ℚ × ℚ

def cnormSq (z : Cx) : ℚ := z.1 * z.1 + z.2 * z.2

/-- The abstracted torch numeric primitives (see header comment). -/
structure TorchPrims where
  sqrtQ : ℚ → ℚ
  rfftVal : List ℚ → ℕ → Cx
  irfftVal : List Cx → ℕ → ℚ
  hammingVal : ℕ → ℕ → ℚ
  hannVal : ℕ → ℕ → ℚ

/-- `torch.fft.rfft` on a length-`n` real vector: `⌊n/2⌋+1` one-sided bins. -/
def rfftL (P : TorchPrims) (x : List ℚ) : List Cx :=
  (List.range (x.length / 2 + 1)).map (P.rfftVal x)

/-- `torch.fft.irfft` with the default output length `2·(bins − 1)`. -/
def irfftL (P : TorchPrims) (y : List Cx) : List ℚ :=
  (List.range (2 * (y.length - 1))).map (P.irfftVal y)

/-- `torch.fft.irfft` applied to a real tensor (as in line 187, where `D`
    is real): torch promotes it to complex with zero imaginary part. -/
def irfftReal (P : TorchPrims) (y : List ℚ) : List ℚ :=
  irfftL P (y.map (fun v => ((v, 0) : Cx)))

/-- `torch.fft.fftshift` along the last axis: a circular roll by `⌊n/2⌋`,
    `out[i] = in[(i − ⌊n/2⌋) mod n]`. -/
def fftshiftL (l : Vec) : Vec :=
  (List.range l.length).map (fun i => l.getD ((i + l.length - l.length / 2) % l.length) 0)

def listMean (l : List ℚ) : ℚ := l.sum / l.length

/-- `shape[-1]` of a rank-3 tensor (all rows have equal length in torch). -/
def innerLen (t : Ten3) : ℕ := ((t.headD []).headD []).length

/-- `torch.fft.rfftfreq(n, d=1/fs)`: the one-sided frequency grid
    `k·fs/n` for `k = 0 .. ⌊n/2⌋`. -/
def rfftfreq (n : ℕ) (fs : ℚ) : List ℚ :=
  (List.range (n / 2 + 1)).map (fun k => (k : ℚ) * fs / (n : ℚ))

/-- Window resolution of `welch_psd` (plot_psd.py lines 106-115): hamming,
    hann, `None` → all ones, anything else raises `ValueError`. -/
def windowVals (P : TorchPrims) (window : Option String) (nperseg : ℕ) :
    Except String (List ℚ) :=
  match window with
  | some w =>
    if w = "hamming" then Except.ok ((List.range nperseg).map (P.hammingVal nperseg))
    else if w = "hann" then Except.ok ((List.range nperseg).map (P.hannVal nperseg))
    else Except.error ("Unsupported window type")
  | none => Except.ok (List.replicate nperseg (1 : ℚ))

/-- `segment - torch.mean(segment, axis=-1)` (line 131). -/
def detrendRow (row : Vec) : Vec := row.map (fun v => v - listMean row)

/-- Lines 138-141: double the non-DC bins, and for even `nperseg` leave the
    last (Nyquist) bin untouched as well (`psd[...,1:] *= 2` versus
    `psd[...,1:-1] *= 2`, modelled index-wise). -/
def doubleBins (nperseg : ℕ) (l : List ℚ) : List ℚ :=
  if nperseg % 2 = 1 then
    List.zipWith (fun i v => if 1 ≤ i then v * 2 else v) (List.range l.length) l
  else
    List.zipWith (fun i v => if 1 ≤ i ∧ i + 1 < l.length then v * 2 else v)
      (List.range l.length) l

/-- Per-segment PSD, lines 130-141: detrend, apply the window, one-sided
    FFT, squared magnitude over `fs * scaling`, one-sided doubling. -/
def segmentPSD (P : TorchPrims) (fs scaling : ℚ) (nperseg : ℕ)
    (wv : List ℚ) (seg : Vec) : Vec :=
  let detrended := detrendRow seg
  let windowed := List.zipWith (· * ·) detrended wv
  let fftl := rfftL P windowed
  doubleBins nperseg (fftl.map (fun z => cnormSq z / (fs * scaling)))

/-- `num_segments = (signal.shape[-1] - noverlap) // step` (line 120) with
    Python's floor division on possibly negative operands. -/
def numSegments (T nperseg noverlap : ℕ) : ℤ :=
  Int.fdiv ((T : ℤ) - (noverlap : ℤ)) ((nperseg : ℤ) - (noverlap : ℤ))

def ten3Add (a b : Ten3) : Ten3 :=
  List.zipWith (fun x y => List.zipWith (fun r s => List.zipWith (· + ·) r s) x y) a b

/-- The body of `welch_psd` after window resolution (lines 117-152):
    scaling, segment loop accumulating per-segment PSDs into a
    zero-initialised `(B, C, ⌊nperseg/2⌋+1)` accumulator, average over the
    segment count, and the frequency grid. -/
def welch_core (P : TorchPrims) (fs : ℚ) (nperseg noverlap : ℕ)
    (wv : List ℚ) (signal : Ten3) : List ℚ × Ten3 :=
  let scaling := ((wv.map (fun w => w * w)).sum : ℚ)
  let step := nperseg - noverlap
  let T := innerLen signal
  let ns : ℤ := numSegments T nperseg noverlap
  let init : Ten3 :=
    signal.map (fun mat => mat.map (fun _ => List.replicate (nperseg / 2 + 1) (0 : ℚ)))
  let psdSum := (List.range ns.toNat).foldl
    (fun acc i => ten3Add acc
      (signal.map (fun mat => mat.map (fun row =>
        segmentPSD P fs scaling nperseg wv ((row.drop (i * step)).take nperseg)))))
    init
  let psd := psdSum.map (fun mat => mat.map (fun row => row.map (fun v => v / (ns : ℚ))))
  (rfftfreq nperseg fs, psd)

/-- `welch_psd(signal, fs, nperseg, noverlap, window, axis=-1)`
    (lines 82-152).  Defaults: `nperseg = 256`, `noverlap = nperseg // 2`.
    The unsupported-window `ValueError` is the only raise site and fires
    before the segment loop. -/
def welch_psd (P : TorchPrims) (signal : Ten3) (fs : ℚ)
    (nperseg noverlap : Option ℕ) (window : Option String) :
    Except String (List ℚ × Ten3) :=
  let np' := nperseg.getD 256
  let no' := noverlap.getD (np' / 2)
  Except.map (fun wv => welch_core P fs np' no' wv signal) (windowVals P window np')

/-- The `TMANorm` module state: configuration plus the
    `running_barycenter` buffer and the `first_iter` flag (lines 156-161). -/
structure TMANorm where
  filter_size : ℕ
  momentum : ℚ
  running_barycenter : Mat
  first_iter : Bool

/-- `TMANorm.__init__` (lines 156-161).  `register_buffer("running_barycenter",
    torch.zeros(1))` stores a placeholder that is overwritten before it is
    ever read (the first forward call replaces it wholesale). -/
def TMANorm.init (filter_size : ℕ) (momentum : ℚ) : TMANorm :=
  { filter_size := filter_size
    momentum := momentum
    running_barycenter := [[0]]
    first_iter := true }

/-- `welch_psd(x, window=None, nperseg=self.filter_size)[1]` (line 168);
    the `window=None` path never raises, so the PSD is total. -/
def TMANorm.psdOf (P : TorchPrims) (st : TMANorm) (x : Ten3) : Ten3 :=
  match welch_psd P x 1 (some st.filter_size) none none with
  | Except.ok r => r.2
  | Except.error _ => []

def matAdd (a b : Mat) : Mat :=
  List.zipWith (fun r s => List.zipWith (· + ·) r s) a b

/-- `torch.sum(·, axis=0)` on a nonempty batch of matrices. -/
def sumAxis0 (t : Ten3) : Mat :=
  match t with
  | [] => []
  | h :: tl => tl.foldl matAdd h

/-- Lines 172-173: `weights = torch.ones_like(psd) / psd.shape[-1]` and
    `new_barycenter = torch.sum(weights * torch.sqrt(psd), axis=0) ** 2`.
    Note the divisor is `psd.shape[-1]`, the *frequency*-axis length. -/
def newBarycenter (P : TorchPrims) (psd : Ten3) : Mat :=
  let wsqrt := psd.map (fun mat => mat.map (fun row =>
    row.map (fun v => 1 / (innerLen psd : ℚ) * P.sqrtQ v)))
  (sumAxis0 wsqrt).map (fun row => row.map (fun v => v ^ 2))

/-- Modelled from the spec (claim C1): the barycenter as the spec words it,
    "the elementwise square of the uniformly weighted mean over the batch
    axis of the elementwise square root of the PSD, with weights
    1/batch_size each". -/
def specBarycenter (P : TorchPrims) (psd : Ten3) : Mat :=
  let msqrt := psd.map (fun mat => mat.map (fun row =>
    row.map (fun v => 1 / (psd.length : ℚ) * P.sqrtQ v)))
  (sumAxis0 msqrt).map (fun row => row.map (fun v => v ^ 2))

/-- Elementwise `(1 - momentum) * stored + momentum * new` (lines 180-182). -/
def emaUpdate (m : ℚ) (old nw : Mat) : Mat :=
  List.zipWith (fun r s => List.zipWith (fun a b => (1 - m) * a + m * b) r s) old nw

/-- Lines 172-182: compute the new barycenter and update the stored one
    (first call stores it outright and clears the flag; later calls blend). -/
def baryUpdate (P : TorchPrims) (m : ℚ) (first : Bool) (stored : Mat)
    (psd : Ten3) : Bool × Mat :=
  let nb := newBarycenter P psd
  if first then (false, nb) else (first, emaUpdate m stored nb)

/-- Lines 186-192: `D = sqrt(barycenter)/sqrt(psd)` (barycenter broadcast
    over the batch axis), `H = irfft(D)`, `fftshift`, `flip`. -/
def buildFilter (P : TorchPrims) (bary : Mat) (psd : Ten3) : Ten3 :=
  let D := psd.map (fun mat =>
    List.zipWith (fun brow prow =>
      List.zipWith (fun b p => P.sqrtQ b / P.sqrtQ p) brow prow) bary mat)
  let H1 := D.map (fun mat => mat.map (fun row => irfftReal P row))
  let H2 := H1.map (fun mat => mat.map fftshiftL)
  H2.map (fun mat => mat.map List.reverse)

/-- `conv1d(x, k, padding="same")` for one channel: cross-correlation with
    zero padding, left pad `⌊(K−1)/2⌋`, output length = input length. -/
def convSame (x k : Vec) : Vec :=
  let lp := (k.length - 1) / 2
  (List.range x.length).map (fun t =>
    ((List.range k.length).map (fun j =>
      k.getD j 0 *
        (if lp ≤ t + j ∧ t + j - lp < x.length then x.getD (t + j - lp) 0 else 0))).sum)

/-- Lines 193-205: the per-batch-element grouped convolution loop plus
    `torch.cat` — each channel of each batch element is convolved with its
    own kernel. -/
def applyFilter (x H : Ten3) : Ten3 :=
  List.zipWith (fun xi Hi => List.zipWith convSame xi Hi) x H

/-- `TMANorm.forward` (lines 163-207). -/
def TMANorm.forward (P : TorchPrims) (st : TMANorm) (x : Ten3) : TMANorm × Ten3 :=
  let psd := st.psdOf P x
  let fb := baryUpdate P st.momentum st.first_iter st.running_barycenter psd
  let H := buildFilter P fb.2 psd
  ({ st with first_iter := fb.1, running_barycenter := fb.2 }, applyFilter x H)

/-- Shape predicates (decidable, for concrete witnesses). -/
abbrev HasShape2 (m : Mat) (C F : ℕ) : Prop :=
  m.length = C ∧ ∀ r ∈ m, r.length = F

abbrev HasShape3 (t : Ten3) (B C T : ℕ) : Prop :=
  t.length = B ∧ ∀ m ∈ t, HasShape2 m C T

abbrev MatNonneg (m : Mat) : Prop := ∀ r ∈ m, ∀ v ∈ r, 0 ≤ v

abbrev Ten3Nonneg (t : Ten3) : Prop := ∀ m ∈ t, MatNonneg m

/-- Concrete primitives used by witnesses and counterexamples: `sqrt` as the
    identity (exact on 0 and 1), constant-zero FFT tables. -/
def P0 : TorchPrims :=
  { sqrtQ := fun q => q
    rfftVal := fun _ _ => (0, 0)
    irfftVal := fun _ _ => 0
    hammingVal := fun _ _ => 0
    hannVal := fun _ _ => 0 }

/-- Concrete primitives with non-degenerate FFT values, for witnesses where
    a zero table would make both sides of an equation collapse. -/
def P1 : TorchPrims :=
  { sqrtQ := fun q => q
    rfftVal := fun l k => ((k : ℚ) + 1, (l.length : ℚ))
    irfftVal := fun l t => (t : ℚ) + (l.length : ℚ)
    hammingVal := fun _ _ => 0
    hannVal := fun _ _ => 0 }

/-! ### Helper lemmas -/

theorem zipWith_getD {α β γ} (f : α → β → γ) (a : List α) (b : List β)
    (i : ℕ) (h1 : i < a.length) (h2 : i < b.length) (d1 : α) (d2 : β) (d3 : γ) :
    (List.zipWith f a b).getD i d3 = f (a.getD i d1) (b.getD i d2) := by
  induction a generalizing b i with
  | nil => simp at h1
  | cons x xs ih =>
    cases b with
    | nil => simp at h2
    | cons y ys =>
      cases i with
      | zero => simp [List.getD]
      | succ n =>
        simp only [List.zipWith, List.getD_cons_succ]
        exact ih ys n (by simpa using h1) (by simpa using h2)

theorem mem_zipWith {α β γ} {f : α → β → γ} {a : List α} {b : List β} {c : γ}
    (hc : c ∈ List.zipWith f a b) : ∃ x ∈ a, ∃ y ∈ b, c = f x y := by
  induction a generalizing b with
  | nil => simp at hc
  | cons x xs ih =>
    cases b with
    | nil => simp at hc
    | cons y ys =>
      simp only [List.zipWith, List.mem_cons] at hc
      rcases hc with h | h
      · exact ⟨x, List.mem_cons_self _ _, y, List.mem_cons_self _ _, h⟩
      · rcases ih h with ⟨x', hx', y', hy', he⟩
        exact ⟨x', List.mem_cons_of_mem _ hx', y', List.mem_cons_of_mem _ hy', he⟩

theorem foldl_preserve {α β} (f : β → α → β) (Q : β → Prop)
    (h : ∀ b a, Q b → Q (f b a)) :
    ∀ (l : List α) (b : β), Q b → Q (l.foldl f b) := by
  intro l
  induction l with
  | nil => intro b hb; simpa using hb
  | cons x xs ih => intro b hb; exact ih (f b x) (h b x hb)

/-- Batch/channel shape (inner row lengths unconstrained). -/
abbrev ShapeBC (t : Ten3) (B C : ℕ) : Prop :=
  t.length = B ∧ ∀ m ∈ t, m.length = C

theorem ten3Add_shapeBC {a b : Ten3} {B C : ℕ}
    (ha : ShapeBC a B C) (hb : ShapeBC b B C) : ShapeBC (ten3Add a b) B C := by
  constructor
  · simp [ten3Add, List.length_zipWith, ha.1, hb.1]
  · intro m hm
    rcases mem_zipWith hm with ⟨x, hx, y, hy, he⟩
    subst he
    simp [List.length_zipWith, ha.2 x hx, hb.2 y hy]

theorem shapeBC_map_rows {t : Ten3} {B C : ℕ} (h : ShapeBC t B C) (g : Vec → Vec) :
    ShapeBC (t.map (fun mat => mat.map g)) B C := by
  refine ⟨by simp [h.1], ?_⟩
  intro m hm
  rcases List.mem_map.mp hm with ⟨mat, hmat, he⟩
  subst he
  simp [h.2 mat hmat]

theorem welch_core_shapeBC (P : TorchPrims) (fs : ℚ) (np' no' : ℕ)
    (wv : List ℚ) (x : Ten3) {B C : ℕ} (hx : ShapeBC x B C) :
    ShapeBC (welch_core P fs np' no' wv x).2 B C := by
  show ShapeBC (List.map _ (List.foldl _ _ _)) B C
  refine shapeBC_map_rows ?_ _
  refine foldl_preserve _ (fun t => ShapeBC t B C) ?_ _ _ (shapeBC_map_rows hx _)
  intro acc i hacc
  exact ten3Add_shapeBC hacc (shapeBC_map_rows hx _)

theorem psdOf_eq (P : TorchPrims) (st : TMANorm) (x : Ten3) :
    st.psdOf P x =
      (welch_core P 1 st.filter_size (st.filter_size / 2)
        (List.replicate st.filter_size (1 : ℚ)) x).2 := rfl

theorem matAdd_shape {a b : Mat} {C F : ℕ}
    (ha : HasShape2 a C F) (hb : HasShape2 b C F) : HasShape2 (matAdd a b) C F := by
  constructor
  · simp [matAdd, List.length_zipWith, ha.1, hb.1]
  · intro r hr
    rcases mem_zipWith hr with ⟨s, hs, u, hu, he⟩
    subst he
    simp [List.length_zipWith, ha.2 s hs, hb.2 u hu]

theorem foldl_preserve_mem {α β} (f : β → α → β) (Q : β → Prop) :
    ∀ (l : List α) (b : β), (∀ c a, a ∈ l → Q c → Q (f c a)) → Q b → Q (l.foldl f b) := by
  intro l
  induction l with
  | nil => intro b _ hb; simpa using hb
  | cons x xs ih =>
    intro b hstep hb
    exact ih (f b x) (fun c a ha hc => hstep c a (List.mem_cons_of_mem _ ha) hc)
      (hstep b x (List.mem_cons_self _ _) hb)

theorem sumAxis0_shape {t : Ten3} {C F : ℕ} (hne : t ≠ [])
    (h : ∀ m ∈ t, HasShape2 m C F) : HasShape2 (sumAxis0 t) C F := by
  cases t with
  | nil => exact absurd rfl hne
  | cons hd tl =>
    show HasShape2 (tl.foldl matAdd hd) C F
    refine foldl_preserve_mem _ (fun m => HasShape2 m C F) tl hd ?_
      (h hd (List.mem_cons_self _ _))
    intro acc a ha hacc
    exact matAdd_shape hacc (h a (List.mem_cons_of_mem _ ha))

theorem matAdd_length {a b : Mat} {C : ℕ}
    (ha : a.length = C) (hb : b.length = C) : (matAdd a b).length = C := by
  simp [matAdd, List.length_zipWith, ha, hb]

theorem sumAxis0_length {t : Ten3} {C : ℕ} (hne : t ≠ [])
    (h : ∀ m ∈ t, m.length = C) : (sumAxis0 t).length = C := by
  cases t with
  | nil => exact absurd rfl hne
  | cons hd tl =>
    show (tl.foldl matAdd hd).length = C
    refine foldl_preserve_mem _ (fun m => m.length = C) tl hd ?_
      (h hd (List.mem_cons_self _ _))
    intro acc a ha hacc
    exact matAdd_length hacc (h a (List.mem_cons_of_mem _ ha))

theorem newBarycenter_length {P : TorchPrims} {psd : Ten3} {C : ℕ}
    (hne : psd ≠ []) (h : ∀ m ∈ psd, m.length = C) :
    (newBarycenter P psd).length = C := by
  unfold newBarycenter
  rw [List.length_map]
  refine sumAxis0_length (by simpa using hne) ?_
  intro m hm
  rcases List.mem_map.mp hm with ⟨mat, hmat, he⟩
  subst he
  simp [h mat hmat]

theorem newBarycenter_shape {P : TorchPrims} {psd : Ten3} {B C F : ℕ}
    (hB : 1 ≤ B) (hpsd : HasShape3 psd B C F) :
    HasShape2 (newBarycenter P psd) C F := by
  unfold newBarycenter
  have hne : psd.map (fun mat => mat.map (fun row =>
      row.map (fun v => 1 / (innerLen psd : ℚ) * P.sqrtQ v))) ≠ [] := by
    intro hc
    rw [List.map_eq_nil_iff] at hc
    subst hc
    have hb0 := hpsd.1
    simp at hb0
    omega
  have hsum : HasShape2 (sumAxis0 (psd.map (fun mat => mat.map (fun row =>
      row.map (fun v => 1 / (innerLen psd : ℚ) * P.sqrtQ v))))) C F := by
    refine sumAxis0_shape hne ?_
    intro m hm
    rcases List.mem_map.mp hm with ⟨mat, hmat, he⟩
    subst he
    have h2 := hpsd.2 mat hmat
    refine ⟨by simp [h2.1], ?_⟩
    intro r hr
    rcases List.mem_map.mp hr with ⟨row, hrow, he2⟩
    subst he2
    simp [h2.2 row hrow]
  refine ⟨by rw [List.length_map]; exact hsum.1, ?_⟩
  intro r hr
  rcases List.mem_map.mp hr with ⟨row, hrow, he⟩
  subst he
  rw [List.length_map]
  exact hsum.2 row hrow

theorem newBarycenter_nonneg (P : TorchPrims) (psd : Ten3) :
    MatNonneg (newBarycenter P psd) := by
  intro r hr v hv
  unfold newBarycenter at hr
  rcases List.mem_map.mp hr with ⟨row, _, he⟩
  subst he
  rcases List.mem_map.mp hv with ⟨w, _, he2⟩
  subst he2
  positivity

theorem emaUpdate_shape {m : ℚ} {old nw : Mat} {C F : ℕ}
    (ho : HasShape2 old C F) (hn : HasShape2 nw C F) :
    HasShape2 (emaUpdate m old nw) C F := by
  constructor
  · simp [emaUpdate, List.length_zipWith, ho.1, hn.1]
  · intro r hr
    rcases mem_zipWith hr with ⟨s, hs, u, hu, he⟩
    subst he
    simp [List.length_zipWith, ho.2 s hs, hn.2 u hu]

theorem emaUpdate_nonneg {m : ℚ} {old nw : Mat}
    (hm0 : 0 ≤ m) (hm1 : m ≤ 1) (ho : MatNonneg old) (hn : MatNonneg nw) :
    MatNonneg (emaUpdate m old nw) := by
  intro r hr v hv
  rcases mem_zipWith hr with ⟨s, hs, u, hu, he⟩
  subst he
  rcases mem_zipWith hv with ⟨a, ha, b, hb, he2⟩
  subst he2
  have h1 : 0 ≤ (1 - m) * a := mul_nonneg (by linarith) (ho s hs a ha)
  have h2 : 0 ≤ m * b := mul_nonneg hm0 (hn u hu b hb)
  linarith

theorem baryUpdate_inv (P : TorchPrims) (m : ℚ) (stored : Mat) (psd : Ten3)
    {C F : ℕ} (hm0 : 0 ≤ m) (hm1 : m ≤ 1)
    (hlen : 1 ≤ psd.length) (hpsd : HasShape3 psd psd.length C F)
    (first : Bool)
    (hst : first = false → MatNonneg stored ∧ HasShape2 stored C F) :
    (baryUpdate P m first stored psd).1 = false ∧
      MatNonneg (baryUpdate P m first stored psd).2 ∧
      HasShape2 (baryUpdate P m first stored psd).2 C F := by
  have hnb : HasShape2 (newBarycenter P psd) C F := newBarycenter_shape hlen hpsd
  cases first with
  | true =>
    refine ⟨rfl, ?_, ?_⟩
    · simpa [baryUpdate] using newBarycenter_nonneg P psd
    · simpa [baryUpdate] using hnb
  | false =>
    rcases hst rfl with ⟨hnn, hsh⟩
    refine ⟨rfl, ?_, ?_⟩
    · simpa [baryUpdate] using
        emaUpdate_nonneg hm0 hm1 hnn (newBarycenter_nonneg P psd)
    · simpa [baryUpdate] using emaUpdate_shape hsh hnb

theorem irfftReal_length (P : TorchPrims) (y : List ℚ) :
    (irfftReal P y).length = 2 * (y.length - 1) := by
  simp [irfftReal, irfftL]

theorem fftshiftL_length (l : Vec) : (fftshiftL l).length = l.length := by
  simp [fftshiftL]

theorem convSame_length (x k : Vec) : (convSame x k).length = x.length := by
  simp [convSame]

theorem buildFilter_shape (P : TorchPrims) {bary : Mat} {psd : Ten3} {B C F : ℕ}
    (hpsd : HasShape3 psd B C F) (hbary : HasShape2 bary C F) :
    HasShape3 (buildFilter P bary psd) B C (2 * (F - 1)) := by
  unfold buildFilter
  refine ⟨by simp [hpsd.1], ?_⟩
  intro m hm
  simp only [List.map_map, List.mem_map] at hm
  rcases hm with ⟨mat, hmat, he⟩
  subst he
  have hmat2 := hpsd.2 mat hmat
  constructor
  · simp [List.length_zipWith, hbary.1, hmat2.1]
  · intro r hr
    simp only [Function.comp, List.mem_map] at hr
    rcases hr with ⟨row, ⟨mid, ⟨drow, hdrow, hmid⟩, hrow2⟩, he2⟩
    subst he2
    subst hrow2
    subst hmid
    rcases mem_zipWith hdrow with ⟨brow, hbrow, prow, hprow, he3⟩
    subst he3
    rw [List.length_reverse, fftshiftL_length, irfftReal_length]
    simp [List.length_zipWith, hbary.2 brow hbrow, hmat2.2 prow hprow]

theorem applyFilter_shape {x H : Ten3} {B C T : ℕ}
    (hx : HasShape3 x B C T) (hH : ShapeBC H B C) :
    HasShape3 (applyFilter x H) B C T := by
  refine ⟨by simp [applyFilter, List.length_zipWith, hx.1, hH.1], ?_⟩
  intro m hm
  rcases mem_zipWith hm with ⟨xi, hxi, Hi, hHi, he⟩
  subst he
  have hxi2 := hx.2 xi hxi
  refine ⟨by simp [List.length_zipWith, hxi2.1, hH.2 Hi hHi], ?_⟩
  intro r hr
  rcases mem_zipWith hr with ⟨xr, hxr, kr, _, he2⟩
  subst he2
  rw [convSame_length]
  exact hxi2.2 xr hxr

/-- Python floor division `a // b` yields a nonpositive count when the
    dividend is below a positive divisor. -/
theorem fdiv_nonpos_of_lt {a b : ℤ} (hab : a < b) (hb : 0 < b) :
    Int.fdiv a b ≤ 0 := by
  rcases lt_or_le a 0 with ha | ha
  · exact le_of_lt (Int.fdiv_neg' ha hb)
  · rw [Int.fdiv_eq_ediv _ (le_of_lt hb)]
    rw [Int.ediv_eq_zero_of_lt ha hab]

theorem forward_flag_false (P : TorchPrims) (st : TMANorm) (x : Ten3) :
    (TMANorm.forward P st x).1.first_iter = false := by
  cases h : st.first_iter <;> simp [TMANorm.forward, baryUpdate, h]

theorem buildFilter_shapeBC {P : TorchPrims} {bary : Mat} {psd : Ten3} {B C : ℕ}
    (hpsd : ShapeBC psd B C) (hbary : bary.length = C) :
    ShapeBC (buildFilter P bary psd) B C := by
  unfold buildFilter
  refine ⟨by simp [hpsd.1], ?_⟩
  intro m hm
  simp only [List.map_map, List.mem_map] at hm
  rcases hm with ⟨mat, hmat, he⟩
  subst he
  simp [List.length_zipWith, hbary, hpsd.2 mat hmat]

/-! ### Claim theorems -/

/-- C1 (code_bug): lines 172-173 weight the square roots by
    `1 / psd.shape[-1]` — the reciprocal of the *frequency*-axis length —
    rather than `1 / batch_size`, before summing over the batch axis.  On
    the PSD batch `[[[1, 1]]]` (batch = 1, channel = 1, frequency = 2) the
    code produces `[[1/4, 1/4]]` while the claimed barycenter
    `(mean over the batch axis of sqrt(psd))^2` (also computed by the
    file's own numpy cross-check, line 516) is `[[1, 1]]`. -/
theorem c1_barycenter_weights_bug (P : TorchPrims) (h : P.sqrtQ 1 = 1) :
    newBarycenter P [[[1, 1]]] = [[1/4, 1/4]] ∧
    specBarycenter P [[[1, 1]]] = [[1, 1]] ∧
    newBarycenter P [[[1, 1]]] ≠ specBarycenter P [[[1, 1]]] := by
  have h1 : newBarycenter P [[[1, 1]]] = [[1/4, 1/4]] := by
    simp [newBarycenter, innerLen, sumAxis0, h]
    norm_num
  have h2 : specBarycenter P [[[1, 1]]] = [[1, 1]] := by
    simp [specBarycenter, sumAxis0, h]
  refine ⟨h1, h2, ?_⟩
  rw [h1, h2]
  norm_num

theorem c1_witness :
    P0.sqrtQ 1 = 1 ∧
    (newBarycenter P0 [[[1, 1]]] = [[1/4, 1/4]] ∧
     specBarycenter P0 [[[1, 1]]] = [[1, 1]] ∧
     newBarycenter P0 [[[1, 1]]] ≠ specBarycenter P0 [[[1, 1]]]) :=
  ⟨rfl, c1_barycenter_weights_bug P0 rfl⟩

/-- C3 counterexample: on a signal of time length 1 with segment length 4
    (strictly larger), `welch_psd` does not raise: it returns a result
    (the zero-initialised accumulator divided by the segment count −1,
    together with the frequency grid). -/
theorem c3_counterexample :
    welch_psd P0 [[[1]]] 1 (some 4) none none =
      Except.ok ([0, 1/4, 1/2], [[[0, 0, 0]]]) := by
  have hns : (numSegments (innerLen [[[(1 : ℚ)]]]) 4 2 : ℤ) = -1 := by decide
  have ht : ((-1 : ℤ)).toNat = 0 := by decide
  simp only [welch_psd, Option.getD, windowVals, Except.map, welch_core, hns]
  norm_num [rfftfreq, innerLen, List.range_succ, ht, List.replicate]

/-- C3 (amended): `welch_psd` performs no input-length validation.  For any
    supported window kind and any signal whose time-axis length is strictly
    smaller than the segment length, it returns normally (`Except.ok`), and
    with the default overlap the segment count is nonpositive, so the
    segment loop runs zero times (in floating point the returned PSD is
    then the 0/0 = NaN tensor, not an exception). -/
theorem c3_no_length_validation (P : TorchPrims) (signal : Ten3) (fs : ℚ)
    (np' : ℕ) (w : Option String)
    (hw : w = none ∨ w = some ("hamming") ∨ w = some ("hann"))
    (hT : innerLen signal < np') :
    (∃ r, welch_psd P signal fs (some np') none w = Except.ok r) ∧
      numSegments (innerLen signal) np' (np' / 2) ≤ 0 := by
  constructor
  · rcases hw with h | h | h <;> subst h <;>
      simp [welch_psd, windowVals, Except.map]
  · have hd : np' / 2 < np' := Nat.div_lt_self (by omega) (by norm_num)
    refine fdiv_nonpos_of_lt ?_ ?_
    · push_cast
      omega
    · push_cast
      omega

theorem c3_witness :
    ((some ("hamming") : Option String) = none ∨
      (some ("hamming") : Option String) = some ("hamming") ∨
      (some ("hamming") : Option String) = some ("hann")) ∧
    innerLen [[[1]]] < 4 ∧
    ((∃ r, welch_psd P0 [[[1]]] 1 (some 4) none (some ("hamming")) = Except.ok r) ∧
      numSegments (innerLen [[[1]]]) 4 (4 / 2) ≤ 0) :=
  ⟨Or.inr (Or.inl rfl), by decide,
    c3_no_length_validation P0 [[[1]]] 1 4 (some ("hamming"))
      (Or.inr (Or.inl rfl)) (by decide)⟩

/-- C6 counterexample: with the odd filter size L = 3, the estimator
    produces ⌊3/2⌋+1 = 2 frequency bins and the Adaptive Filter Builder's
    inverse one-sided FFT yields a kernel of length 2·(2−1) = 2 ≠ 3, so the
    kernel length is *not* L for odd L. -/
theorem c6_counterexample :
    innerLen (buildFilter P0
      (newBarycenter P0 ((TMANorm.init 3 (1/10)).psdOf P0 [[[1, 2, 3]]]))
      ((TMANorm.init 3 (1/10)).psdOf P0 [[[1, 2, 3]]])) = 2 ∧
    (TMANorm.init 3 (1/10)).filter_size = 3 ∧
    innerLen (buildFilter P0
      (newBarycenter P0 ((TMANorm.init 3 (1/10)).psdOf P0 [[[1, 2, 3]]]))
      ((TMANorm.init 3 (1/10)).psdOf P0 [[[1, 2, 3]]])) ≠
      (TMANorm.init 3 (1/10)).filter_size := by
  decide

/-- C6 (amended): for a PSD of shape (B, C, ⌊L/2⌋+1) — the one-sided bin
    count the estimator produces for segment length L — and a barycenter of
    matching shape, the Adaptive Filter Builder's kernel has shape
    (B, C, 2·⌊L/2⌋): the time-domain response has length L when L is even
    and length L − 1 when L is odd. -/
theorem c6_kernel_length (P : TorchPrims) (bary : Mat) (psd : Ten3)
    (B C np' : ℕ)
    (hpsd : HasShape3 psd B C (np' / 2 + 1))
    (hbary : HasShape2 bary C (np' / 2 + 1)) :
    HasShape3 (buildFilter P bary psd) B C (2 * (np' / 2)) := by
  have h := buildFilter_shape P hpsd hbary
  simpa using h

theorem c6_witness :
    HasShape3 [[[1, 1]]] 1 1 (3 / 2 + 1) ∧
    HasShape2 [[1, 1]] 1 (3 / 2 + 1) ∧
    HasShape3 (buildFilter P0 [[1, 1]] [[[1, 1]]]) 1 1 (2 * (3 / 2)) :=
  ⟨by decide, by decide,
    c6_kernel_length P0 [[1, 1]] [[[1, 1]]] 1 1 3 (by decide) (by decide)⟩

/-- C8: the initialized/not-initialized flag starts at `true`
    (uninitialized) on construction, becomes `false` (initialized) after
    any forward call, and never reverts: every state reachable by at least
    one forward call has `first_iter = false`. -/
theorem c8_flag_transitions (P : TorchPrims) (fsz : ℕ) (m : ℚ)
    (st : TMANorm) (x : Ten3) (xs : List Ten3) :
    (TMANorm.init fsz m).first_iter = true ∧
    (TMANorm.forward P st x).1.first_iter = false ∧
    ((x :: xs).foldl (fun s y => (TMANorm.forward P s y).1) st).first_iter = false := by
  refine ⟨rfl, forward_flag_false P st x, ?_⟩
  show ((xs).foldl (fun s y => (TMANorm.forward P s y).1)
      (TMANorm.forward P st x).1).first_iter = false
  refine foldl_preserve _ (fun s : TMANorm => s.first_iter = false) ?_ xs _
    (forward_flag_false P st x)
  intro s y _
  exact forward_flag_false P s y

/-- C10: a forward call changes no configuration state: the returned module
    state keeps the construction-time `filter_size` and `momentum`
    unchanged (and, the embedding being pure, the input tensor is not
    mutated — the source never writes into `x`). -/
theorem c10_forward_frame (P : TorchPrims) (st : TMANorm) (x : Ten3) :
    (TMANorm.forward P st x).1.filter_size = st.filter_size ∧
    (TMANorm.forward P st x).1.momentum = st.momentum :=
  ⟨rfl, rfl⟩

/-- C2: for a Normalizer with momentum in (0, 1], the first forward call
    stores the newly computed barycenter with no blending, and every later
    call replaces the stored barycenter elementwise with
    `(1 − momentum) · previous + momentum · new`. -/
theorem c2_ema_update (P : TorchPrims) (st : TMANorm) (x : Ten3)
    (_hm0 : 0 < st.momentum) (_hm1 : st.momentum ≤ 1) :
    (st.first_iter = true →
      (TMANorm.forward P st x).1.running_barycenter =
        newBarycenter P (st.psdOf P x)) ∧
    (st.first_iter = false →
      ∀ i j : ℕ,
        i < st.running_barycenter.length →
        i < (newBarycenter P (st.psdOf P x)).length →
        j < (st.running_barycenter.getD i []).length →
        j < ((newBarycenter P (st.psdOf P x)).getD i []).length →
        ((TMANorm.forward P st x).1.running_barycenter.getD i []).getD j 0 =
          (1 - st.momentum) * ((st.running_barycenter.getD i []).getD j 0) +
            st.momentum *
              (((newBarycenter P (st.psdOf P x)).getD i []).getD j 0)) := by
  constructor
  · intro h
    simp [TMANorm.forward, baryUpdate, h]
  · intro h i j h1 h2 h3 h4
    have hb : (TMANorm.forward P st x).1.running_barycenter =
        emaUpdate st.momentum st.running_barycenter
          (newBarycenter P (st.psdOf P x)) := by
      simp [TMANorm.forward, baryUpdate, h]
    rw [hb]
    unfold emaUpdate
    rw [zipWith_getD _ st.running_barycenter
      (newBarycenter P (st.psdOf P x)) i h1 h2 [] [] []]
    rw [zipWith_getD _ (st.running_barycenter.getD i [])
      ((newBarycenter P (st.psdOf P x)).getD i []) j h3 h4 0 0 0]

theorem c2_witness :
    ((TMANorm.forward P0
        { filter_size := 2, momentum := 1/2, running_barycenter := [[2]],
          first_iter := false } [[[1, 2, 3]]]).1.running_barycenter.getD 0 []).getD 0 0 =
      (1 - (1/2 : ℚ)) *
          ((([[2]] : Mat).getD 0 []).getD 0 0) +
        (1/2 : ℚ) *
          (((newBarycenter P0 (TMANorm.psdOf P0
              { filter_size := 2, momentum := 1/2, running_barycenter := [[2]],
                first_iter := false } [[[1, 2, 3]]])).getD 0 []).getD 0 0) :=
  (c2_ema_update P0
    { filter_size := 2, momentum := 1/2, running_barycenter := [[2]],
      first_iter := false } [[[1, 2, 3]]]
    (by norm_num) (by norm_num)).2 rfl 0 0
    (by decide) (by decide) (by decide) (by decide)

theorem range_getD {n k : ℕ} (hk : k < n) : (List.range n).getD k 0 = k := by
  rw [List.getD_eq_getElem?_getD, List.getElem?_range hk]
  rfl

theorem doubleBins_getD (np' : ℕ) (l : List ℚ) (k : ℕ) (hk : k < l.length) :
    (doubleBins np' l).getD k 0 =
      (if k = 0 ∨ (np' % 2 = 0 ∧ k + 1 = l.length) then 1 else 2) * l.getD k 0 := by
  have hr : k < (List.range l.length).length := by simpa using hk
  unfold doubleBins
  rcases Nat.mod_two_eq_zero_or_one np' with hp | hp
  · rw [if_neg (by omega)]
    rw [zipWith_getD _ (List.range l.length) l k hr hk 0 0 0, range_getD hk]
    rcases Nat.eq_zero_or_pos k with hk0 | hk1
    · subst hk0
      rw [if_neg (by omega), if_pos (by left; rfl)]
      ring
    · rcases Nat.lt_or_ge (k + 1) l.length with hlt | hge
      · rw [if_pos ⟨hk1, hlt⟩, if_neg (by omega)]
        ring
      · have heq : k + 1 = l.length := by omega
        rw [if_neg (by omega), if_pos (by right; exact ⟨hp, heq⟩)]
        ring
  · rw [if_pos hp]
    rw [zipWith_getD _ (List.range l.length) l k hr hk 0 0 0, range_getD hk]
    rcases Nat.eq_zero_or_pos k with hk0 | hk1
    · subst hk0
      rw [if_neg (by omega), if_pos (by left; rfl)]
      ring
    · rw [if_pos (show 1 ≤ k by omega), if_neg (by omega)]
      ring

/-- C4: inside `welch_psd`, the per-segment PSD at frequency bin `k` is the
    squared magnitude of the one-sided FFT of the windowed detrended
    segment, divided by `fs ·(sum of squared window coefficients)`, doubled
    at every bin except DC (index 0) and — when the segment length is even
    — except the Nyquist bin (the last index); for odd segment lengths all
    bins except DC are doubled.  (`welch_core` invokes `segmentPSD` with
    exactly `scaling = Σ w²`.) -/
theorem c4_segment_psd (P : TorchPrims) (fs : ℚ) (np' : ℕ) (wv seg : Vec)
    (k : ℕ)
    (hk : k < (rfftL P (List.zipWith (· * ·) (detrendRow seg) wv)).length) :
    (segmentPSD P fs ((wv.map (fun w => w * w)).sum) np' wv seg).getD k 0 =
      (if k = 0 ∨ (np' % 2 = 0 ∧
          k + 1 = (rfftL P (List.zipWith (· * ·) (detrendRow seg) wv)).length)
        then 1 else 2) *
        (cnormSq ((rfftL P (List.zipWith (· * ·) (detrendRow seg) wv)).getD k (0, 0)) /
          (fs * (wv.map (fun w => w * w)).sum)) := by
  unfold segmentPSD
  have hk2 : k < ((rfftL P (List.zipWith (· * ·) (detrendRow seg) wv)).map
      (fun z => cnormSq z / (fs * (wv.map (fun w => w * w)).sum))).length := by
    simpa using hk
  rw [doubleBins_getD _ _ _ hk2]
  rw [List.length_map]
  rw [List.getD_eq_getElem?_getD, List.getElem?_map]
  rw [List.getD_eq_getElem?_getD]
  rw [List.getElem?_eq_getElem hk]
  rfl

theorem c4_witness :
    (1 < (rfftL P1 (List.zipWith (· * ·)
        (detrendRow [1, 2, 3, 4]) [1, 1, 1, 1])).length) ∧
    (segmentPSD P1 1 (([1, 1, 1, 1].map (fun w => w * w)).sum) 4
        [1, 1, 1, 1] [1, 2, 3, 4]).getD 1 0 =
      (if (1 : ℕ) = 0 ∨ ((4 : ℕ) % 2 = 0 ∧
          1 + 1 = (rfftL P1 (List.zipWith (· * ·)
            (detrendRow [1, 2, 3, 4]) [1, 1, 1, 1])).length)
        then 1 else 2) *
        (cnormSq ((rfftL P1 (List.zipWith (· * ·)
            (detrendRow [1, 2, 3, 4]) [1, 1, 1, 1])).getD 1 (0, 0)) /
          (1 * (([1, 1, 1, 1].map (fun w => w * w)).sum))) :=
  ⟨by decide, c4_segment_psd P1 1 4 [1, 1, 1, 1] [1, 2, 3, 4] 1 (by decide)⟩

theorem emaUpdate_length {m : ℚ} {old nw : Mat} {C : ℕ}
    (ho : old.length = C) (hn : nw.length = C) : (emaUpdate m old nw).length = C := by
  simp [emaUpdate, List.length_zipWith, ho, hn]

/-- C5: for any input batch of shape (B, C, T) with
    `filter_size ≤ T`, a forward call returns a tensor of exactly the same
    shape (B, C, T).  The state hypothesis (`first_iter`, or a stored
    barycenter with C channel rows) is the session invariant maintained by
    every forward call on PSDs of a fixed channel count. -/
theorem c5_forward_shape (P : TorchPrims) (st : TMANorm) (x : Ten3)
    (B C T : ℕ) (hx : HasShape3 x B C T) (_hseg : st.filter_size ≤ T)
    (hst : st.first_iter = true ∨ st.running_barycenter.length = C) :
    HasShape3 (TMANorm.forward P st x).2 B C T := by
  have hxBC : ShapeBC x B C := ⟨hx.1, fun m hm => (hx.2 m hm).1⟩
  have hpsdBC : ShapeBC (st.psdOf P x) B C := by
    rw [psdOf_eq]
    exact welch_core_shapeBC P 1 st.filter_size (st.filter_size / 2)
      (List.replicate st.filter_size 1) x hxBC
  rcases Nat.eq_zero_or_pos B with hB | hB
  · subst hB
    have hx0 : x = [] := List.length_eq_zero.mp hx.1
    subst hx0
    exact ⟨rfl, fun m hm => absurd hm (List.not_mem_nil m)⟩
  · have hpsd_ne : st.psdOf P x ≠ [] := by
      intro hc
      have h0 := hpsdBC.1
      rw [hc] at h0
      simp only [List.length_nil] at h0
      omega
    have hbary_len :
        (baryUpdate P st.momentum st.first_iter st.running_barycenter
          (st.psdOf P x)).2.length = C := by
      have hnb : (newBarycenter P (st.psdOf P x)).length = C :=
        newBarycenter_length hpsd_ne hpsdBC.2
      cases hfi : st.first_iter with
      | true => simpa [baryUpdate, hfi] using hnb
      | false =>
        rcases hst with h | h
        · rw [hfi] at h
          cases h
        · simp only [baryUpdate, hfi, Bool.false_eq_true, if_false]
          exact emaUpdate_length h hnb
    have hH : ShapeBC (buildFilter P
        (baryUpdate P st.momentum st.first_iter st.running_barycenter
          (st.psdOf P x)).2 (st.psdOf P x)) B C :=
      buildFilter_shapeBC hpsdBC hbary_len
    show HasShape3 (applyFilter x (buildFilter P
      (baryUpdate P st.momentum st.first_iter st.running_barycenter
        (st.psdOf P x)).2 (st.psdOf P x))) B C T
    exact applyFilter_shape hx hH

theorem c5_witness :
    HasShape3 [[[1, 2]]] 1 1 2 ∧ (TMANorm.init 2 (1/10)).filter_size ≤ 2 ∧
    HasShape3 (TMANorm.forward P0 (TMANorm.init 2 (1/10)) [[[1, 2]]]).2 1 1 2 :=
  ⟨by decide, by decide,
    c5_forward_shape P0 (TMANorm.init 2 (1/10)) [[[1, 2]]] 1 1 2
      (by decide) (by decide) (Or.inl rfl)⟩

/-- C7: starting from a freshly constructed tracker (flag uninitialized),
    after the first forward-style barycenter update and for every later
    update fed non-negative PSD batches of shape (B, C, F) with B ≥ 1, the
    stored barycenter is elementwise non-negative and has shape (C, F) —
    each incoming PSD's shape with the batch axis reduced away. -/
theorem c7_barycenter_invariant (P : TorchPrims) (m : ℚ) (C F : ℕ)
    (stored0 : Mat) (psd0 : Ten3) (psds : List Ten3)
    (hm0 : 0 ≤ m) (hm1 : m ≤ 1)
    (hpsd : ∀ q ∈ psd0 :: psds,
      1 ≤ q.length ∧ HasShape3 q q.length C F ∧ Ten3Nonneg q) :
    MatNonneg (psds.foldl (fun s q => baryUpdate P m s.1 s.2 q)
        (baryUpdate P m true stored0 psd0)).2 ∧
      HasShape2 (psds.foldl (fun s q => baryUpdate P m s.1 s.2 q)
        (baryUpdate P m true stored0 psd0)).2 C F := by
  have hbase := baryUpdate_inv P m stored0 psd0 hm0 hm1
    (hpsd psd0 (List.mem_cons_self _ _)).1
    (hpsd psd0 (List.mem_cons_self _ _)).2.1 true (fun h => Bool.noConfusion h)
  have hfold : ((psds.foldl (fun s q => baryUpdate P m s.1 s.2 q)
      (baryUpdate P m true stored0 psd0)).1 = false ∧
      MatNonneg (psds.foldl (fun s q => baryUpdate P m s.1 s.2 q)
        (baryUpdate P m true stored0 psd0)).2 ∧
      HasShape2 (psds.foldl (fun s q => baryUpdate P m s.1 s.2 q)
        (baryUpdate P m true stored0 psd0)).2 C F) := by
    refine foldl_preserve_mem _
      (fun s : Bool × Mat =>
        s.1 = false ∧ MatNonneg s.2 ∧ HasShape2 s.2 C F) psds _ ?_ hbase
    intro s q hq hs
    have hq' := hpsd q (List.mem_cons_of_mem _ hq)
    exact baryUpdate_inv P m s.2 q hm0 hm1 hq'.1 hq'.2.1 s.1
      (fun _ => ⟨hs.2.1, hs.2.2⟩)
  exact ⟨hfold.2.1, hfold.2.2⟩

theorem c7_witness :
    (0 : ℚ) ≤ 1/2 ∧ (1/2 : ℚ) ≤ 1 ∧
    MatNonneg (([[[[9], [16]]]] : List Ten3).foldl
        (fun s q => baryUpdate P0 (1/2) s.1 s.2 q)
        (baryUpdate P0 (1/2) true [[5]] [[[4], [1]]])).2 ∧
      HasShape2 (([[[[9], [16]]]] : List Ten3).foldl
        (fun s q => baryUpdate P0 (1/2) s.1 s.2 q)
        (baryUpdate P0 (1/2) true [[5]] [[[4], [1]]])).2 2 1 := by
  refine ⟨by norm_num, by norm_num, ?_⟩
  exact c7_barycenter_invariant P0 (1/2) 2 1 [[5]] [[[4], [1]]] [[[[9], [16]]]]
    (by norm_num) (by norm_num) (by decide)

/-- C9: `welch_psd` is a pure deterministic function — equal arguments give
    equal (frequencies, psd) results (the embedding is a mathematical
    function; the source mutates only freshly allocated locals, never its
    input or external state) — and the frequency axis it returns is the
    same for any two signals under the same configuration: whenever the
    window kind is supported it is exactly `rfftfreq nperseg fs`, a
    function of the segment length and sampling rate alone. -/
theorem c9_welch_pure (P : TorchPrims) (fs : ℚ) (np' no' : Option ℕ)
    (w : Option String) (s1 s2 : Ten3) :
    (∀ t1 t2 : Ten3, t1 = t2 →
      welch_psd P t1 fs np' no' w = welch_psd P t2 fs np' no' w) ∧
    Except.map Prod.fst (welch_psd P s1 fs np' no' w) =
      Except.map Prod.fst (welch_psd P s2 fs np' no' w) ∧
    Except.map Prod.fst (welch_psd P s1 fs np' no' w) =
      Except.map (fun _ => rfftfreq (np'.getD 256) fs)
        (windowVals P w (np'.getD 256)) := by
  have key : ∀ s : Ten3, Except.map Prod.fst (welch_psd P s fs np' no' w) =
      Except.map (fun _ => rfftfreq (np'.getD 256) fs)
        (windowVals P w (np'.getD 256)) := by
    intro s
    show Except.map Prod.fst
      (Except.map (fun wv => welch_core P fs (np'.getD 256)
        ((no'.getD (np'.getD 256 / 2))) wv s) (windowVals P w (np'.getD 256))) = _
    cases windowVals P w (np'.getD 256) with
    | error e => rfl
    | ok wv => rfl
  exact ⟨fun t1 t2 h => by rw [h], (key s1).trans (key s2).symm, key s1⟩

theorem c9_witness :
    Except.map Prod.fst (welch_psd P0 [[[1, 2]]] 1 (some 2) none none) =
      Except.map Prod.fst (welch_psd P0 [[[5, 6, 7]]] 1 (some 2) none none) :=
  (c9_welch_pure P0 1 (some 2) none none [[[1, 2]]] [[[5, 6, 7]]]).2.1

end PSDNorm
